import Mathlib

/-!
Shallow embedding of the RSS news fetcher pipeline
(src/workers/news-api/fetcher/fetcher.py) and proofs about its
collector, summarizer and publisher stages.

Python strings are modelled as lists of characters; external effects
(HTTP responses, the text-generation provider) are modelled as explicit
outcome values supplied to the embedded functions.
-/

/-- Model of Python str.strip(): drop leading and trailing whitespace
characters (ASCII whitespace model of the Python whitespace set). -/
def pyStrip (l : List Char) : List Char :=
  ((l.dropWhile Char.isWhitespace).reverse.dropWhile Char.isWhitespace).reverse

/-- One left-to-right pass modelling re.sub of the pattern "&lt;[^&gt;]+&gt;"
with the empty replacement, as used by clean_html and summarize_with_ai.
State none: not inside a candidate match. State some buf: a candidate
opening bracket has been read, and buf holds (reversed) the characters
read since, none of which was a closing bracket. On a closing bracket
with nonempty buf the whole candidate is a regex match and is dropped;
with empty buf the pattern (which needs at least one character between
the brackets) does not match there, so both brackets are kept, exactly
as re.sub keeps them when it fails to match and advances. At end of
input an unclosed candidate is emitted verbatim, since re.sub never
matches a bracket without a closing one. -/
def subTagsAux : Option (List Char) → List Char → List Char
  | none, [] => []
  | none, c :: rest =>
    if c = '<' then subTagsAux (some []) rest else c :: subTagsAux none rest
  | some buf, [] => '<' :: buf.reverse
  | some buf, c :: rest =>
    if c = '>' then
      if buf = [] then '<' :: '>' :: subTagsAux none rest
      else subTagsAux none rest
    else subTagsAux (some (c :: buf)) rest

/-- The tag-removal substitution applied to a whole text. -/
def subTags (l : List Char) : List Char := subTagsAux none l

/-- clean_html from fetcher.py: an empty text maps to the empty text;
otherwise remove every tag match and strip surrounding whitespace. -/
def clean_html (text : List Char) : List Char :=
  if text = [] then [] else pyStrip (subTags text)

/-- An article record as built by fetch_rss: the dict with keys
title, url, source, summary, raw_summary, external_id. -/
structure Article where
  title : List Char
  url : List Char
  source : List Char
  summary : List Char
  raw_summary : List Char
  external_id : List Char
deriving DecidableEq

/-- Default article used with List.getD when indexing article lists. -/
def blankArticle : Article := ⟨[], [], [], [], [], []⟩

/-- A parsed feed entry as fetch_rss reads it: the values of
entry.get for title, link, description and summary, where an absent
field is the empty string. -/
structure Entry where
  title : List Char
  link : List Char
  description : List Char
  summary : List Char
deriving DecidableEq

/-- The expression entry.get description or entry.get summary:
Python's or yields the second operand when the first is empty. -/
def entryRawSummary (e : Entry) : List Char :=
  if e.description = [] then e.summary else e.description

/-- The article record the fetch_rss loop body builds from one entry:
summary is the cleaned raw summary truncated to 500 characters,
raw_summary is the raw extracted text, external_id is the link. -/
def entryArticle (name : List Char) (e : Entry) : Article :=
  { title := e.title
    url := e.link
    source := name
    summary := (clean_html (entryRawSummary e)).take 500
    raw_summary := entryRawSummary e
    external_id := e.link }

/-- The entry loop of fetch_rss: a record is appended only when both
title and link are nonempty, in document order. -/
def collectEntries (name : List Char) : List Entry → List Article
  | [] => []
  | e :: rest =>
    if e.title ≠ [] ∧ e.link ≠ [] then entryArticle name e :: collectEntries name rest
    else collectEntries name rest

/-- A configured feed source: a dict with name and url. -/
structure Source where
  name : List Char
  url : List Char
deriving DecidableEq

/-- Outcome of fetching and parsing one source. ok carries the parsed
entries of a 2xx response; timeout models requests Timeout;
httpStatus models a non-2xx status raised by raise_for_status;
netError models any other RequestException; parseError models any
other exception raised while parsing or reading entries. -/
inductive FetchOutcome
  | ok (entries : List Entry)
  | timeout
  | httpStatus (status : Nat)
  | netError
  | parseError
deriving DecidableEq

/-- fetch_rss: on success process the entries; every except branch
(print and) returns the empty list, so no exception escapes. -/
def fetch_rss (source : Source) (outcome : FetchOutcome) : List Article :=
  match outcome with
  | FetchOutcome.ok entries => collectEntries source.name entries
  | _ => []

/-- Whether a fetch outcome is one of the failure branches. -/
def isFetchFailure : FetchOutcome → Bool
  | FetchOutcome.ok _ => false
  | _ => true

/-- The source loop of main: fetch each configured source in order and
extend the accumulated list with its articles. -/
def collect_all (env : Source → FetchOutcome) : List Source → List Article
  | [] => []
  | s :: rest => fetch_rss s (env s) ++ collect_all env rest

/-- Result of one provider chat-completion call: ok carries the
message content; err stands for any raised exception, including the
ImportError of a missing groq library, rate limiting, auth failures
and network errors. -/
inductive ProviderResult
  | ok (content : List Char)
  | err
deriving DecidableEq

/-- summarize_with_ai from fetcher.py. Returns the summary to use
together with the number of provider interactions attempted: with an
empty key it returns the raw summary untouched without any call; on
an error it returns the raw summary; on success it strips the content
and returns it unless that is empty, in which case the raw summary
stands. The prompt built from the title and the cleaned raw summary
only affects the provider request, never the returned value. -/
def summarize_with_ai (groq_api_key : List Char) (title raw_summary : List Char)
    (provider : ProviderResult) : List Char × Nat :=
  if groq_api_key = [] then (raw_summary, 0)
  else
    match provider with
    | ProviderResult.err => (raw_summary, 1)
    | ProviderResult.ok content =>
      let ai_summary := pyStrip content
      if ai_summary = [] then (raw_summary, 1) else (ai_summary, 1)

/-- One body of the process_articles_with_ai loop: read raw_summary
(falling back to summary when it is empty), call summarize_with_ai,
and overwrite the summary field with the result. The second component
counts provider interactions. -/
def summarizeStep (groq_api_key : List Char) (r : ProviderResult) (a : Article) :
    Article × Nat :=
  let out := summarize_with_ai groq_api_key a.title
    (if a.raw_summary = [] then a.summary else a.raw_summary) r
  ({ a with summary := out.1 }, out.2)

/-- The article loop of process_articles_with_ai; the oracle gives the
provider response for the call made at each position. -/
def processLoop (groq_api_key : List Char) (oracle : Nat → ProviderResult) :
    Nat → List Article → List Article × Nat
  | _, [] => ([], 0)
  | i, a :: rest =>
    let step := summarizeStep groq_api_key (oracle i) a
    let done := processLoop groq_api_key oracle (i + 1) rest
    (step.1 :: done.1, step.2 + done.2)

/-- process_articles_with_ai from fetcher.py: when the enable flag is
false or the key is empty, return the input list with zero provider
calls; otherwise run the per-article loop from position zero. -/
def process_articles_with_ai (enable_ai_summary : Bool) (groq_api_key : List Char)
    (oracle : Nat → ProviderResult) (articles : List Article) : List Article × Nat :=
  if enable_ai_summary = false then (articles, 0)
  else if groq_api_key = [] then (articles, 0)
  else processLoop groq_api_key oracle 0 articles

/-- Outcome of the single upload POST: success carries the inserted
and skipped counts of the response body (none when the key is absent);
httpError models a non-2xx status raised by raise_for_status;
reqError models any other RequestException (timeout, connection). -/
inductive UploadOutcome
  | success (inserted skipped : Option Nat)
  | httpError (status : Nat)
  | reqError
deriving DecidableEq

/-- Diagnostics upload_articles prints, in order. badCredential
models the extra key-configuration message printed only for 401. -/
inductive Diag
  | uploaded (inserted skipped : Nat)
  | httpFailed (status : Nat)
  | badCredential
  | networkFailed
deriving DecidableEq

/-- upload_articles from fetcher.py: an empty batch is a trivial
success with no request; a 2xx response reports the counts (absent
counts default to 0) and returns true; an HTTP error returns false,
printing the additional credential diagnostic exactly when the status
is 401; any other request error returns false. -/
def upload_articles (articles : List Article) (outcome : UploadOutcome) :
    Bool × List Diag :=
  if articles = [] then (true, [])
  else
    match outcome with
    | UploadOutcome.success ins skp => (true, [Diag.uploaded (ins.getD 0) (skp.getD 0)])
    | UploadOutcome.httpError status =>
      if status = 401 then (false, [Diag.httpFailed status, Diag.badCredential])
      else (false, [Diag.httpFailed status])
    | UploadOutcome.reqError => (false, [Diag.networkFailed])

/-- ASCII model of Python str.lower as used on the flag value. -/
def toLowerStr (l : List Char) : List Char := l.map Char.toLower

/-- The ENABLE_AI_SUMMARY expression: os.getenv with default "true",
lowercased, tested for membership in the pair ("true", "1"). The
argument is the environment value, none when the variable is unset. -/
def parse_enable_flag (v : Option (List Char)) : Bool :=
  decide (toLowerStr (v.getD ("true".toList)) = "true".toList
    ∨ toLowerStr (v.getD ("true".toList)) = "1".toList)

/-- Whether a text contains a closing angle bracket. -/
def containsGt : List Char → Bool
  | [] => false
  | c :: rest => if c = '>' then true else containsGt rest

/-- Whether the tag pattern (opening bracket, one or more characters
none of which is a closing bracket, closing bracket) matches at the
head of the text. -/
def startsTag : List Char → Bool
  | [] => false
  | [_] => false
  | c :: d :: rest =>
    if c = '<' then (if d = '>' then false else containsGt (d :: rest)) else false

/-- Whether the tag pattern matches anywhere in the text. -/
def hasTag : List Char → Bool
  | [] => false
  | c :: rest => startsTag (c :: rest) || hasTag rest

/-- Concrete article used to exercise the summarizer error path: its
summary is the cleaned text while raw_summary keeps the HTML. -/
def cexArticle : Article :=
  { title := "t".toList
    url := "u".toList
    source := "s".toList
    summary := "hi".toList
    raw_summary := "<p>hi</p>".toList
    external_id := "u".toList }

/-- Concrete entry whose description carries HTML markup. -/
def cexEntry : Entry :=
  { title := "t".toList
    link := "l".toList
    description := "<p>hi</p>".toList
    summary := [] }

/-- Concrete entry whose description contains a bare closing bracket
that the tag regex does not remove. -/
def cexEntryGt : Entry :=
  { title := "t".toList
    link := "l".toList
    description := "a > b".toList
    summary := [] }

/-- Concrete entry whose description is a bracket pair with nothing
between, which the tag regex leaves in place. -/
def cexEntryEmptyTag : Entry :=
  { title := "t".toList
    link := "l".toList
    description := "<>".toList
    summary := [] }

/-- C6: an entry whose extracted title or link is empty is excluded
from the collector output, and every other entry is included, in feed
document order: the entry loop is exactly a filter for nonempty title
and link followed by the per-entry record construction. -/
theorem collector_keeps_exactly_wellformed_entries (name : List Char) (entries : List Entry) :
    collectEntries name entries
      = (entries.filter (fun e => decide (e.title ≠ []) && decide (e.link ≠ []))).map
          (entryArticle name) := by
  induction entries with
  | nil => rfl
  | cons e rest ih =>
    simp only [collectEntries, List.filter_cons]
    by_cases h1 : e.title ≠ []
    · by_cases h2 : e.link ≠ []
      · simp [h1, h2, ih]
      · simp [h1, h2, ih]
    · simp [h1, ih]

/-- C7: every record the collector produces has a summary of at most
500 characters. -/
theorem collector_summary_length_le_500 (name : List Char) (entries : List Entry)
    (a : Article) (ha : a ∈ collectEntries name entries) :
    a.summary.length ≤ 500 := by
  induction entries with
  | nil => simp [collectEntries] at ha
  | cons e rest ih =>
    simp only [collectEntries] at ha
    by_cases h : e.title ≠ [] ∧ e.link ≠ []
    · rw [if_pos h] at ha
      rcases List.mem_cons.mp ha with rfl | hmem
      · show ((clean_html (entryRawSummary e)).take 500).length ≤ 500
        rw [List.length_take]
        exact min_le_left _ _
      · exact ih hmem
    · rw [if_neg h] at ha
      exact ih ha

/-- Witness for C7 at a concrete entry list. -/
theorem collector_summary_length_le_500_witness :
    entryArticle ("n".toList) cexEntry ∈ collectEntries ("n".toList) [cexEntry]
    ∧ (entryArticle ("n".toList) cexEntry).summary.length ≤ 500 :=
  ⟨by decide, collector_summary_length_le_500 ("n".toList) [cexEntry] _ (by decide)⟩

/-- C4: with the enable flag false or an empty provider credential,
the summarizer stage is the identity on the article list and performs
zero provider calls. -/
theorem summarizer_disabled_is_identity (enable : Bool) (key : List Char)
    (oracle : Nat → ProviderResult) (articles : List Article)
    (h : enable = false ∨ key = []) :
    process_articles_with_ai enable key oracle articles = (articles, 0) := by
  rcases h with h | h
  · simp [process_articles_with_ai, h]
  · cases enable <;> simp [process_articles_with_ai, h]

/-- Witness for C4 at a concrete disabled configuration. -/
theorem summarizer_disabled_is_identity_witness :
    (false = false ∨ ("k".toList : List Char) = [])
    ∧ process_articles_with_ai false ("k".toList) (fun _ => ProviderResult.err) [cexArticle]
        = ([cexArticle], 0) :=
  ⟨Or.inl rfl,
    summarizer_disabled_is_identity false ("k".toList) (fun _ => ProviderResult.err)
      [cexArticle] (Or.inl rfl)⟩

/-- C8: on a 401 the publisher reports failure and prints the extra
credential diagnostic, and that diagnostic appears for no other
outcome (other HTTP statuses, success, or request errors). -/
theorem publisher_401_distinct_credential_diag (articles : List Article) (status : Nat)
    (ins skp : Option Nat) (hne : articles ≠ []) (hst : status ≠ 401) :
    (upload_articles articles (UploadOutcome.httpError 401)).1 = false
    ∧ Diag.badCredential ∈ (upload_articles articles (UploadOutcome.httpError 401)).2
    ∧ Diag.badCredential ∉ (upload_articles articles (UploadOutcome.httpError status)).2
    ∧ Diag.badCredential ∉ (upload_articles articles (UploadOutcome.success ins skp)).2
    ∧ Diag.badCredential ∉ (upload_articles articles UploadOutcome.reqError).2 := by
  simp [upload_articles, hne, hst]

/-- Witness for C8 at a concrete nonempty batch and a 404 contrast. -/
theorem publisher_401_distinct_credential_diag_witness :
    (([cexArticle] : List Article) ≠ [] ∧ (404 : Nat) ≠ 401)
    ∧ ((upload_articles [cexArticle] (UploadOutcome.httpError 401)).1 = false
    ∧ Diag.badCredential ∈ (upload_articles [cexArticle] (UploadOutcome.httpError 401)).2
    ∧ Diag.badCredential ∉ (upload_articles [cexArticle] (UploadOutcome.httpError 404)).2
    ∧ Diag.badCredential ∉ (upload_articles [cexArticle] (UploadOutcome.success (some 3) none)).2
    ∧ Diag.badCredential ∉ (upload_articles [cexArticle] UploadOutcome.reqError).2) :=
  ⟨⟨by decide, by decide⟩,
    publisher_401_distinct_credential_diag [cexArticle] 404 (some 3) none
      (by decide) (by decide)⟩

/-- C10: the enable flag is on exactly when the lowercased value is
"true" or "1"; it defaults to on when the variable is unset; "TRUE"
and "True" turn it on while "yes" and "on" do not. -/
theorem enable_flag_parsing (v : List Char) :
    parse_enable_flag none = true
    ∧ (parse_enable_flag (some v) = true
        ↔ (toLowerStr v = "true".toList ∨ toLowerStr v = "1".toList))
    ∧ parse_enable_flag (some ("TRUE".toList)) = true
    ∧ parse_enable_flag (some ("True".toList)) = true
    ∧ parse_enable_flag (some ("yes".toList)) = false
    ∧ parse_enable_flag (some ("on".toList)) = false := by
  refine ⟨by decide, ?_, by decide, by decide, by decide, by decide⟩
  simp [parse_enable_flag]

/-- The summarizer loop keeps the length of the article list. -/
theorem processLoop_length (key : List Char) (oracle : Nat → ProviderResult)
    (l : List Article) (k : Nat) :
    ((processLoop key oracle k l).1).length = l.length := by
  induction l generalizing k with
  | nil => rfl
  | cons a rest ih => simp [processLoop, ih]

/-- Pointwise description of the summarizer loop: the article at any
position depends only on the input article at that position and the
provider response for that position. -/
theorem processLoop_getD (key : List Char) (oracle : Nat → ProviderResult)
    (l : List Article) (k i : Nat) (hi : i < l.length) :
    (processLoop key oracle k l).1.getD i blankArticle
      = (summarizeStep key (oracle (k + i)) (l.getD i blankArticle)).1 := by
  induction l generalizing k i with
  | nil => simp at hi
  | cons a rest ih =>
    cases i with
    | zero => simp [processLoop]
    | succ n =>
      have hn : n < rest.length := by simpa using hi
      have harith : k + 1 + n = k + (n + 1) := by omega
      simp only [processLoop, List.getD_cons_succ]
      rw [ih (k + 1) n hn, harith]

/-- Indexing an article list past its end gives the default. -/
theorem getD_articles_of_length_le (l : List Article) (i : Nat) (h : l.length ≤ i) :
    l.getD i blankArticle = blankArticle := by
  induction l generalizing i with
  | nil => cases i <;> rfl
  | cons a rest ih =>
    cases i with
    | zero => simp at h
    | succ n =>
      have : rest.length ≤ n := by simpa using h
      simpa using ih n this

/-- C9: the summarizer stage returns a list of the same length, and at
every position the title, url, source, raw_summary and external_id
fields are unchanged: only the summary field is ever rewritten. -/
theorem summarizer_frame (enable : Bool) (key : List Char)
    (oracle : Nat → ProviderResult) (articles : List Article) (i : Nat)
    (hi : i < articles.length) :
    ((process_articles_with_ai enable key oracle articles).1).length = articles.length
    ∧ ((process_articles_with_ai enable key oracle articles).1.getD i blankArticle).title
        = (articles.getD i blankArticle).title
    ∧ ((process_articles_with_ai enable key oracle articles).1.getD i blankArticle).url
        = (articles.getD i blankArticle).url
    ∧ ((process_articles_with_ai enable key oracle articles).1.getD i blankArticle).source
        = (articles.getD i blankArticle).source
    ∧ ((process_articles_with_ai enable key oracle articles).1.getD i blankArticle).raw_summary
        = (articles.getD i blankArticle).raw_summary
    ∧ ((process_articles_with_ai enable key oracle articles).1.getD i blankArticle).external_id
        = (articles.getD i blankArticle).external_id := by
  unfold process_articles_with_ai
  cases enable with
  | false => simp
  | true =>
    by_cases hk : key = []
    · simp [hk]
    · simp only [hk, if_neg, if_false, Bool.true_eq_false, reduceIte]
      rw [processLoop_getD key oracle articles 0 i hi]
      refine ⟨processLoop_length key oracle articles 0, ?_⟩
      simp [summarizeStep]

/-- Witness for C9 at a concrete enabled run with a failing provider. -/
theorem summarizer_frame_witness :
    (0 : Nat) < ([cexArticle] : List Article).length
    ∧ (((process_articles_with_ai true ("k".toList) (fun _ => ProviderResult.err) [cexArticle]).1).length
        = ([cexArticle] : List Article).length
    ∧ ((process_articles_with_ai true ("k".toList) (fun _ => ProviderResult.err) [cexArticle]).1.getD 0 blankArticle).title
        = (([cexArticle] : List Article).getD 0 blankArticle).title
    ∧ ((process_articles_with_ai true ("k".toList) (fun _ => ProviderResult.err) [cexArticle]).1.getD 0 blankArticle).url
        = (([cexArticle] : List Article).getD 0 blankArticle).url
    ∧ ((process_articles_with_ai true ("k".toList) (fun _ => ProviderResult.err) [cexArticle]).1.getD 0 blankArticle).source
        = (([cexArticle] : List Article).getD 0 blankArticle).source
    ∧ ((process_articles_with_ai true ("k".toList) (fun _ => ProviderResult.err) [cexArticle]).1.getD 0 blankArticle).raw_summary
        = (([cexArticle] : List Article).getD 0 blankArticle).raw_summary
    ∧ ((process_articles_with_ai true ("k".toList) (fun _ => ProviderResult.err) [cexArticle]).1.getD 0 blankArticle).external_id
        = (([cexArticle] : List Article).getD 0 blankArticle).external_id) :=
  ⟨by decide,
    summarizer_frame true ("k".toList) (fun _ => ProviderResult.err) [cexArticle] 0 (by decide)⟩

/-- C1 counterexample: with AI enabled and a credential set, a failing
provider call does not leave the summary at its pre-call cleaned value;
the code overwrites it with the raw_summary field, here the original
HTML-bearing text. -/
theorem summarizer_error_changes_summary_counterexample :
    cexArticle.summary = "hi".toList
    ∧ cexArticle.raw_summary = "<p>hi</p>".toList
    ∧ ((process_articles_with_ai true ("k".toList) (fun _ => ProviderResult.err)
          [cexArticle]).1.getD 0 blankArticle).summary = "<p>hi</p>".toList
    ∧ ("<p>hi</p>".toList : List Char) ≠ "hi".toList := by decide

/-- C1 amended: with AI enabled and a credential set, when the provider
call for an article errors or returns output that is empty after
stripping, that article's summary is set to its raw_summary field (the
original uncleaned text), or kept at its pre-call value when
raw_summary is empty; the articles at every other position are
unaffected by that call's outcome. -/
theorem summarizer_error_falls_back_to_raw (key : List Char)
    (oracle oracle2 : Nat → ProviderResult) (articles : List Article) (i j : Nat)
    (hk : key ≠ []) (hi : i < articles.length)
    (hfail : oracle i = ProviderResult.err
      ∨ ∃ t, oracle i = ProviderResult.ok t ∧ pyStrip t = [])
    (hagree : ∀ n, n ≠ i → oracle2 n = oracle n) (hj : j ≠ i) :
    ((process_articles_with_ai true key oracle articles).1.getD i blankArticle).summary
      = (if (articles.getD i blankArticle).raw_summary = []
          then (articles.getD i blankArticle).summary
          else (articles.getD i blankArticle).raw_summary)
    ∧ (process_articles_with_ai true key oracle2 articles).1.getD j blankArticle
      = (process_articles_with_ai true key oracle articles).1.getD j blankArticle := by
  have hproc : ∀ o : Nat → ProviderResult,
      process_articles_with_ai true key o articles = processLoop key o 0 articles := by
    intro o
    simp [process_articles_with_ai, hk]
  constructor
  · rw [hproc oracle, processLoop_getD key oracle articles 0 i hi]
    rcases hfail with hf | ⟨t, ht, hts⟩
    · simp [summarizeStep, summarize_with_ai, hf, hk]
    · simp [summarizeStep, summarize_with_ai, ht, hts, hk]
  · rw [hproc oracle, hproc oracle2]
    by_cases hjl : j < articles.length
    · rw [processLoop_getD key oracle articles 0 j hjl,
        processLoop_getD key oracle2 articles 0 j hjl]
      simp only [Nat.zero_add]
      rw [hagree j hj]
    · have hle : articles.length ≤ j := Nat.le_of_not_lt hjl
      rw [getD_articles_of_length_le _ _ (by rw [processLoop_length]; exact hle),
        getD_articles_of_length_le _ _ (by rw [processLoop_length]; exact hle)]

/-- Witness for the amended C1 at a concrete two-article batch with an
erroring provider. -/
theorem summarizer_error_falls_back_to_raw_witness :
    (("k".toList : List Char) ≠ []
      ∧ (0 : Nat) < ([cexArticle, blankArticle] : List Article).length)
    ∧ (((process_articles_with_ai true ("k".toList) (fun _ => ProviderResult.err)
          [cexArticle, blankArticle]).1.getD 0 blankArticle).summary
      = (if (([cexArticle, blankArticle] : List Article).getD 0 blankArticle).raw_summary = []
          then (([cexArticle, blankArticle] : List Article).getD 0 blankArticle).summary
          else (([cexArticle, blankArticle] : List Article).getD 0 blankArticle).raw_summary)
    ∧ (process_articles_with_ai true ("k".toList) (fun _ => ProviderResult.err)
          [cexArticle, blankArticle]).1.getD 1 blankArticle
      = (process_articles_with_ai true ("k".toList) (fun _ => ProviderResult.err)
          [cexArticle, blankArticle]).1.getD 1 blankArticle) :=
  ⟨⟨by decide, by decide⟩,
    summarizer_error_falls_back_to_raw ("k".toList) (fun _ => ProviderResult.err)
      (fun _ => ProviderResult.err) [cexArticle, blankArticle] 0 1
      (by decide) (by decide) (Or.inl rfl) (fun _ _ => rfl) (by decide)⟩

/-- C2 counterexample: the raw_summary field of a collector record is
the original extracted text with its HTML intact, not the cleaned
(HTML-stripped) summary text. -/
theorem raw_summary_not_cleaned_counterexample :
    (entryArticle ("n".toList) cexEntry).raw_summary = "<p>hi</p>".toList
    ∧ clean_html ("<p>hi</p>".toList) = "hi".toList
    ∧ ("<p>hi</p>".toList : List Char) ≠ "hi".toList := by decide

/-- C2 amended: the raw_summary field of every collector record is the
original extracted summary text (description preferred, else summary)
without HTML stripping or truncation, and the summary field is the
cleaned truncation of exactly that retained text. -/
theorem raw_summary_is_uncleaned_original (name : List Char) (e : Entry) :
    (entryArticle name e).raw_summary
      = (if e.description = [] then e.summary else e.description)
    ∧ (entryArticle name e).summary
      = (clean_html ((entryArticle name e).raw_summary)).take 500 :=
  ⟨rfl, rfl⟩

/-- containsGt decides membership of the closing bracket. -/
theorem containsGt_eq_true_iff (l : List Char) : containsGt l = true ↔ '>' ∈ l := by
  induction l with
  | nil => simp [containsGt]
  | cons c rest ih =>
    by_cases hc : c = '>'
    · simp [containsGt, hc]
    · simp only [containsGt, if_neg hc, ih, List.mem_cons]
      constructor
      · exact fun h => Or.inr h
      · rintro (h | h)
        · exact absurd h.symm hc
        · exact h

/-- containsGt is false exactly on texts with no closing bracket. -/
theorem containsGt_eq_false_iff (l : List Char) : containsGt l = false ↔ '>' ∉ l := by
  constructor
  · intro h hm
    rw [← containsGt_eq_true_iff] at hm
    rw [h] at hm
    exact absurd hm (by simp)
  · intro h
    cases hb : containsGt l with
    | false => rfl
    | true => exact absurd ((containsGt_eq_true_iff l).mp hb) h

/-- A text starting with anything but an opening bracket starts no tag. -/
theorem startsTag_cons_of_ne (c : Char) (l : List Char) (hc : c ≠ '<') :
    startsTag (c :: l) = false := by
  cases l with
  | nil => rfl
  | cons d rest => simp [startsTag, hc]

/-- The pattern needs a character between the brackets, so an opening
bracket followed directly by a closing one starts no tag. -/
theorem startsTag_lt_gt (l : List Char) : startsTag ('<' :: '>' :: l) = false := by
  simp [startsTag]

/-- A text with no closing bracket contains no tag. -/
theorem hasTag_eq_false_of_containsGt (l : List Char) (h : containsGt l = false) :
    hasTag l = false := by
  induction l with
  | nil => rfl
  | cons c rest ih =>
    have hc : c ≠ '>' := by
      intro hceq
      rw [containsGt, if_pos hceq] at h
      exact absurd h (by simp)
    have hrest : containsGt rest = false := by rwa [containsGt, if_neg hc] at h
    have hih := ih hrest
    show (startsTag (c :: rest) || hasTag rest) = false
    rw [hih, Bool.or_false]
    cases rest with
    | nil => rfl
    | cons d r =>
      have hd : d ≠ '>' := by
        intro hdeq
        rw [containsGt, if_pos hdeq] at hrest
        exact absurd hrest (by simp)
      by_cases hcl : c = '<'
      · simp [startsTag, hcl, hd, hrest]
      · simp [startsTag, hcl]

/-- A tag match at the head survives appending on the right. -/
theorem startsTag_append_of_true (a b : List Char) (h : startsTag a = true) :
    startsTag (a ++ b) = true := by
  match a with
  | [] => simp [startsTag] at h
  | [c] => simp [startsTag] at h
  | c :: d :: rest =>
    by_cases hcl : c = '<'
    · by_cases hd : d = '>'
      · rw [startsTag, if_pos hcl, if_pos hd] at h
        exact absurd h (by simp)
      · rw [startsTag, if_pos hcl, if_neg hd] at h
        show startsTag (c :: d :: (rest ++ b)) = true
        rw [startsTag, if_pos hcl, if_neg hd]
        rw [containsGt_eq_true_iff] at h ⊢
        have hmem : '>' ∈ (d :: rest) ++ b := List.mem_append_left b h
        simpa using hmem
    · rw [startsTag_cons_of_ne c _ hcl] at h
      exact absurd h (by simp)

/-- A tag somewhere in a text survives appending on the right. -/
theorem hasTag_append_left_of_true (a b : List Char) (h : hasTag a = true) :
    hasTag (a ++ b) = true := by
  induction a with
  | nil => simp [hasTag] at h
  | cons c rest ih =>
    have h' : (startsTag (c :: rest) || hasTag rest) = true := h
    show (startsTag (c :: (rest ++ b)) || hasTag (rest ++ b)) = true
    rcases Bool.or_eq_true_iff.mp h' with hs | hr
    · have hsb := startsTag_append_of_true (c :: rest) b hs
      rw [show ((c :: rest) ++ b) = c :: (rest ++ b) from rfl] at hsb
      rw [hsb, Bool.true_or]
    · rw [ih hr, Bool.or_true]

/-- A tag somewhere in a text survives prepending on the left. -/
theorem hasTag_append_right_of_true (a b : List Char) (h : hasTag b = true) :
    hasTag (a ++ b) = true := by
  induction a with
  | nil => simpa using h
  | cons c rest ih =>
    show (startsTag (c :: (rest ++ b)) || hasTag (rest ++ b)) = true
    rw [ih, Bool.or_true]

/-- Freedom from tags passes to any middle segment of a text. -/
theorem hasTag_false_middle (p m s : List Char) (h : hasTag (p ++ m ++ s) = false) :
    hasTag m = false := by
  cases hmb : hasTag m with
  | false => rfl
  | true =>
    have h1 : hasTag (m ++ s) = true := hasTag_append_left_of_true m s hmb
    have h2 : hasTag (p ++ (m ++ s)) = true := hasTag_append_right_of_true p _ h1
    rw [← List.append_assoc] at h2
    rw [h] at h2
    exact absurd h2 (by simp)

/-- Core invariant of the substitution pass: its output contains no
match of the tag pattern, provided the buffered candidate holds no
closing bracket. -/
theorem subTagsAux_no_tag (l : List Char) :
    ∀ st : Option (List Char), (∀ buf, st = some buf → containsGt buf = false) →
      hasTag (subTagsAux st l) = false := by
  induction l with
  | nil =>
    intro st hst
    rcases st with _ | buf
    · rfl
    · have hb : containsGt buf = false := hst buf rfl
      show hasTag ('<' :: buf.reverse) = false
      apply hasTag_eq_false_of_containsGt
      rw [containsGt, if_neg (by decide : ('<' : Char) ≠ '>')]
      rw [containsGt_eq_false_iff] at hb ⊢
      simpa using hb
  | cons c rest ih =>
    intro st hst
    rcases st with _ | buf
    · have hunf : subTagsAux none (c :: rest)
          = if c = '<' then subTagsAux (some []) rest else c :: subTagsAux none rest := rfl
      by_cases hc : c = '<'
      · rw [hunf, if_pos hc]
        exact ih (some []) (fun b hbeq => by
          injection hbeq with hbe
          rw [← hbe]
          rfl)
      · rw [hunf, if_neg hc]
        have hout := ih none (fun _ hbeq => Option.noConfusion hbeq)
        show (startsTag (c :: subTagsAux none rest) || hasTag (subTagsAux none rest)) = false
        rw [startsTag_cons_of_ne c _ hc, hout]
        rfl
    · have hb : containsGt buf = false := hst buf rfl
      have hunf : subTagsAux (some buf) (c :: rest)
          = if c = '>' then
              (if buf = [] then '<' :: '>' :: subTagsAux none rest else subTagsAux none rest)
            else subTagsAux (some (c :: buf)) rest := rfl
      by_cases hcg : c = '>'
      · by_cases hbe : buf = []
        · rw [hunf, if_pos hcg, if_pos hbe]
          have hout := ih none (fun _ hbeq => Option.noConfusion hbeq)
          have h2 : startsTag ('>' :: subTagsAux none rest) = false :=
            startsTag_cons_of_ne _ _ (by decide)
          show (startsTag ('<' :: '>' :: subTagsAux none rest)
              || (startsTag ('>' :: subTagsAux none rest)
                || hasTag (subTagsAux none rest))) = false
          rw [startsTag_lt_gt, h2, hout]
          rfl
        · rw [hunf, if_pos hcg, if_neg hbe]
          exact ih none (fun _ hbeq => Option.noConfusion hbeq)
      · rw [hunf, if_neg hcg]
        exact ih (some (c :: buf)) (fun b hbeq => by
          injection hbeq with hbe
          rw [← hbe, containsGt, if_neg hcg]
          exact hb)

/-- The tag-removal substitution leaves no match of its own pattern. -/
theorem subTags_no_tag (l : List Char) : hasTag (subTags l) = false :=
  subTagsAux_no_tag l none (fun _ hbeq => Option.noConfusion hbeq)

/-- Stripping whitespace takes a middle segment of the text. -/
theorem pyStrip_middle (l : List Char) : ∃ p s, l = p ++ pyStrip l ++ s := by
  refine ⟨l.takeWhile Char.isWhitespace,
    ((l.dropWhile Char.isWhitespace).reverse.takeWhile Char.isWhitespace).reverse, ?_⟩
  have h1 : l.takeWhile Char.isWhitespace ++ l.dropWhile Char.isWhitespace = l :=
    List.takeWhile_append_dropWhile _ _
  have h2 : (l.dropWhile Char.isWhitespace).reverse.takeWhile Char.isWhitespace
      ++ (l.dropWhile Char.isWhitespace).reverse.dropWhile Char.isWhitespace
      = (l.dropWhile Char.isWhitespace).reverse :=
    List.takeWhile_append_dropWhile _ _
  have h4 := congrArg List.reverse h2
  rw [List.reverse_append, List.reverse_reverse] at h4
  have h5 : l.dropWhile Char.isWhitespace
      = pyStrip l
        ++ ((l.dropWhile Char.isWhitespace).reverse.takeWhile Char.isWhitespace).reverse := by
    rw [pyStrip]
    exact h4.symm
  calc l = l.takeWhile Char.isWhitespace ++ l.dropWhile Char.isWhitespace := h1.symm
    _ = l.takeWhile Char.isWhitespace
        ++ (pyStrip l
          ++ ((l.dropWhile Char.isWhitespace).reverse.takeWhile Char.isWhitespace).reverse) := by
        rw [← h5]
    _ = l.takeWhile Char.isWhitespace ++ pyStrip l
        ++ ((l.dropWhile Char.isWhitespace).reverse.takeWhile Char.isWhitespace).reverse := by
        rw [List.append_assoc]

/-- Any truncation of a cleaned text contains no match of the tag
pattern: a complete tag never survives clean_html. -/
theorem clean_html_take_no_tag (text : List Char) (n : Nat) :
    hasTag ((clean_html text).take n) = false := by
  by_cases ht : text = []
  · simp [clean_html, ht, hasTag]
  · rw [clean_html, if_neg ht]
    obtain ⟨p, s, hps⟩ := pyStrip_middle (subTags text)
    have hsub : hasTag (subTags text) = false := subTags_no_tag text
    have htd : (pyStrip (subTags text)).take n ++ (pyStrip (subTags text)).drop n
        = pyStrip (subTags text) := List.take_append_drop n _
    rw [hps] at hsub
    have h1 : hasTag (pyStrip (subTags text)) = false :=
      hasTag_false_middle p _ s hsub
    apply hasTag_false_middle [] _ ((pyStrip (subTags text)).drop n)
    show hasTag ([] ++ (pyStrip (subTags text)).take n ++ (pyStrip (subTags text)).drop n) = false
    rw [List.nil_append, htd]
    exact h1

/-- A decomposition exhibiting a complete tag makes hasTag true. -/
theorem hasTag_decomp (p m s : List Char) (hm : m ≠ []) (hgt : '>' ∉ m) :
    hasTag (p ++ '<' :: (m ++ '>' :: s)) = true := by
  apply hasTag_append_right_of_true
  rcases m with _ | ⟨c, m'⟩
  · exact absurd rfl hm
  · have hc : c ≠ '>' := by
      intro hceq
      exact hgt (by rw [← hceq] at hgt ⊢; exact List.mem_cons_self c m')
    have hmem : containsGt (c :: (m' ++ '>' :: s)) = true := by
      rw [containsGt_eq_true_iff]
      exact List.mem_cons_of_mem c (List.mem_append_right m' (List.mem_cons_self _ _))
    show (startsTag ('<' :: c :: (m' ++ '>' :: s))
        || hasTag (c :: (m' ++ '>' :: s))) = true
    have hst : startsTag ('<' :: c :: (m' ++ '>' :: s)) = true := by
      rw [startsTag, if_pos rfl, if_neg hc]
      exact hmem
    rw [hst, Bool.true_or]

/-- C3 counterexample: a record summary may contain a bare closing
bracket, since the tag regex only removes complete bracket pairs with
at least one character between them. -/
theorem collector_summary_markup_counterexample :
    '>' ∈ (entryArticle ("n".toList) cexEntryGt).summary
    ∧ (entryArticle ("n".toList) cexEntryGt).summary = "a > b".toList := by decide

/-- C3 amended: a collector summary never contains a complete tag:
whenever it splits around an opening bracket, some inner characters
and a closing bracket, the inner part is empty or itself contains a
closing bracket, so no match of the removed pattern survives; lone or
unpaired angle brackets may remain. -/
theorem collector_summary_no_complete_tag (name : List Char) (e : Entry)
    (p m s : List Char)
    (h : (entryArticle name e).summary = p ++ '<' :: (m ++ '>' :: s)) :
    m = [] ∨ '>' ∈ m := by
  by_cases hm : m = []
  · exact Or.inl hm
  · by_cases hgt : '>' ∈ m
    · exact Or.inr hgt
    · exfalso
      have h1 : hasTag ((entryArticle name e).summary) = false := by
        show hasTag ((clean_html (entryRawSummary e)).take 500) = false
        exact clean_html_take_no_tag _ 500
      rw [h, hasTag_decomp p m s hm hgt] at h1
      exact absurd h1 (by simp)

/-- Witness for the amended C3 at an entry whose summary keeps an
unmatched bracket pair. -/
theorem collector_summary_no_complete_tag_witness :
    (entryArticle ("n".toList) cexEntryEmptyTag).summary
      = [] ++ '<' :: (([] : List Char) ++ '>' :: [])
    ∧ (([] : List Char) = [] ∨ '>' ∈ ([] : List Char)) :=
  ⟨by decide,
    collector_summary_no_complete_tag ("n".toList) cexEntryEmptyTag [] [] [] (by decide)⟩

/-- Every failure branch of fetch_rss returns the empty list. -/
theorem fetch_failure_yields_empty (s : Source) (o : FetchOutcome)
    (h : isFetchFailure o = true) : fetch_rss s o = [] := by
  cases o with
  | ok entries => simp [isFetchFailure] at h
  | timeout => rfl
  | httpStatus status => rfl
  | netError => rfl
  | parseError => rfl

/-- The source loop distributes over concatenation of source lists. -/
theorem collect_all_append (env : Source → FetchOutcome) (a b : List Source) :
    collect_all env (a ++ b) = collect_all env a ++ collect_all env b := by
  induction a with
  | nil => rfl
  | cons s rest ih => simp [collect_all, ih]

/-- C5: a source whose fetch times out, hits a network error or a
non-2xx status, or whose content fails to parse contributes exactly
zero records, no exception escapes (fetch_rss is total), and every
other configured source before and after it is still processed. -/
theorem failed_source_isolated (env : Source → FetchOutcome) (pre post : List Source)
    (s : Source) (h : isFetchFailure (env s) = true) :
    fetch_rss s (env s) = []
    ∧ collect_all env (pre ++ s :: post) = collect_all env pre ++ collect_all env post := by
  have h0 : fetch_rss s (env s) = [] := fetch_failure_yields_empty s (env s) h
  refine ⟨h0, ?_⟩
  rw [collect_all_append]
  show collect_all env pre ++ (fetch_rss s (env s) ++ collect_all env post)
      = collect_all env pre ++ collect_all env post
  rw [h0, List.nil_append]

/-- Witness for C5 with a timing-out source followed by another one. -/
theorem failed_source_isolated_witness :
    isFetchFailure ((fun _ : Source => FetchOutcome.timeout) ⟨"a".toList, "ua".toList⟩) = true
    ∧ (fetch_rss ⟨"a".toList, "ua".toList⟩
        ((fun _ : Source => FetchOutcome.timeout) ⟨"a".toList, "ua".toList⟩) = []
    ∧ collect_all (fun _ => FetchOutcome.timeout)
        ([] ++ ⟨"a".toList, "ua".toList⟩ :: [⟨"b".toList, "ub".toList⟩])
      = collect_all (fun _ => FetchOutcome.timeout) []
        ++ collect_all (fun _ => FetchOutcome.timeout) [⟨"b".toList, "ub".toList⟩]) :=
  ⟨rfl,
    failed_source_isolated (fun _ => FetchOutcome.timeout) []
      [⟨"b".toList, "ub".toList⟩] ⟨"a".toList, "ua".toList⟩ rfl⟩
